import Mathlib

/-!
Verification of the content-addressed de-duplication store.

Shallow embedding of the TypeScript sources:
  - `src/lib/database.ts`   (SimulatedDatabase: files map, hash index, stats)
  - `src/lib/fileUtils.ts`  (validateFile, generateFileMetadata, hashing)
  - `src/app/api/upload/route.ts` (POST upload handler, GET files handler,
    processFileInBackground)

JavaScript `Map` objects are modelled as association lists in insertion
order (`jsMapSet` replaces in place when the key is present and appends
otherwise, exactly like `Map.prototype.set`).  `Array.prototype.slice`
with its negative-index semantics is modelled by `jsSlice`, and
`Array.prototype.sort` (stable since ES2019) by `List.mergeSort` with the
source comparator.  File contents are byte lists; timestamps are passed
in explicitly as naturals (the value of `new Date()` at the call).
UUID generation is modelled by a fresh-id counter in the store state.
-/

namespace Dedup

/-- Processing status of a record, from the union type in database.ts. -/
inductive ProcessingStatus where
  | pending
  | processing
  | completed
  | failed
deriving DecidableEq, Repr

/-- FileRecord from database.ts.  `id` is a Nat (models the UUID string,
generated freshly per insertion); `created_at` is a Nat timestamp;
`chunk_count` is optional as in the source. -/
structure FileRecord where
  id : Nat
  file_name : String
  file_hash : String
  file_size : Nat
  mime_type : String
  created_at : Nat
  chunk_count : Option Nat
  processing_status : ProcessingStatus
deriving DecidableEq, Repr

/-- The argument of insertFile: `Omit<FileRecord, 'id' | 'created_at'>`. -/
structure InsertData where
  file_name : String
  file_hash : String
  file_size : Nat
  mime_type : String
  chunk_count : Option Nat
  processing_status : ProcessingStatus
deriving DecidableEq, Repr

/-- `Map.prototype.has`. -/
def jsMapHas {κ ν : Type} [BEq κ] (m : List (κ × ν)) (k : κ) : Bool :=
  m.any (fun p => p.1 == k)

/-- `Map.prototype.get` (`none` models `undefined`). -/
def jsMapGet {κ ν : Type} [BEq κ] (m : List (κ × ν)) (k : κ) : Option ν :=
  (m.find? (fun p => p.1 == k)).map Prod.snd

/-- `Map.prototype.set`: replace in place if the key is present, append
otherwise (insertion order is preserved, as for JavaScript Map). -/
def jsMapSet {κ ν : Type} [BEq κ] (m : List (κ × ν)) (k : κ) (v : ν) :
    List (κ × ν) :=
  if jsMapHas m k then
    m.map (fun p => if p.1 == k then (p.1, v) else p)
  else
    m ++ [(k, v)]

/-- `Map.prototype.values()` in insertion order. -/
def jsMapValues {κ ν : Type} (m : List (κ × ν)) : List ν :=
  m.map Prod.snd

/-- `Array.prototype.slice(start, stop)` per ECMAScript: negative indices
count from the end, then both are clamped to `[0, length]`. -/
def jsSlice {α : Type} (xs : List α) (start stop : Int) : List α :=
  let len : Int := xs.length
  let s : Int := if start < 0 then max (len + start) 0 else min start len
  let e : Int := if stop < 0 then max (len + stop) 0 else min stop len
  (xs.take e.toNat).drop s.toNat

/-- The state of SimulatedDatabase: `files` is the id-keyed Map,
`hashIndex` the hash-to-id Map, `nextId` the fresh-id source standing in
for uuidv4 (each insertion consumes one fresh id). -/
structure DB where
  files : List (Nat × FileRecord)
  hashIndex : List (String × Nat)
  nextId : Nat
deriving DecidableEq, Repr

/-- The store at module load: both maps empty. -/
def emptyDB : DB := { files := [], hashIndex := [], nextId := 0 }

/-- The record literal built inside insertFile:
`{ id, ...fileData, created_at: new Date() }`. -/
def mkRecord (id : Nat) (fileData : InsertData) (now : Nat) : FileRecord :=
  { id := id
    file_name := fileData.file_name
    file_hash := fileData.file_hash
    file_size := fileData.file_size
    mime_type := fileData.mime_type
    created_at := now
    chunk_count := fileData.chunk_count
    processing_status := fileData.processing_status }

/-- SimulatedDatabase.insertFile.  Throwing is modelled by
`Except.error`; the returned `DB` is the state of the store after the
call (unchanged when the duplicate-hash check throws, since the throw
happens before any mutation).  `now` is the value of `new Date()`. -/
def insertFile (db : DB) (fileData : InsertData) (now : Nat) :
    Except String FileRecord × DB :=
  if jsMapHas db.hashIndex fileData.file_hash then
    (Except.error
      ("File with hash " ++ fileData.file_hash ++ " already exists"), db)
  else
    let id := db.nextId
    let record : FileRecord := mkRecord id fileData now
    (Except.ok record,
      { files := jsMapSet db.files id record
        hashIndex := jsMapSet db.hashIndex fileData.file_hash id
        nextId := db.nextId + 1 })

/-- SimulatedDatabase.findByHash.  Returns the looked-up record and the
store state after the call. -/
def findByHash (db : DB) (hash : String) : Option FileRecord × DB :=
  match jsMapGet db.hashIndex hash with
  | none => (none, db)
  | some id => (jsMapGet db.files id, db)

/-- SimulatedDatabase.findById. -/
def findById (db : DB) (id : Nat) : Option FileRecord × DB :=
  (jsMapGet db.files id, db)

/-- The comparator `(a, b) => b.created_at.getTime() - a.created_at.getTime()`
as a Boolean order: `a` sorts no later than `b` when the comparator is
non-positive, i.e. newest first. -/
def newestFirst (a b : FileRecord) : Bool :=
  decide (b.created_at ≤ a.created_at)

/-- SimulatedDatabase.getAllFiles: sort all records newest-first by
`created_at` and slice `[offset, offset + limit)`. -/
def getAllFiles (db : DB) (limit offset : Int) : List FileRecord × DB :=
  let allFiles := (jsMapValues db.files).mergeSort newestFirst
  (jsSlice allFiles offset (offset + limit), db)

/-- The in-place mutation of the fetched record inside
updateProcessingStatus: assign the status, then assign `chunk_count`
exactly when the optional argument was supplied. -/
def applyStatusUpdate (record : FileRecord) (status : ProcessingStatus)
    (chunkCount : Option Nat) : FileRecord :=
  let r1 : FileRecord := { record with processing_status := status }
  match chunkCount with
  | none => r1
  | some c => { r1 with chunk_count := some c }

/-- SimulatedDatabase.updateProcessingStatus: no-op when the id is
unknown; otherwise set the status, and set `chunk_count` when (and only
when) the optional argument is supplied. -/
def updateProcessingStatus (db : DB) (id : Nat)
    (status : ProcessingStatus) (chunkCount : Option Nat) : DB :=
  match jsMapGet db.files id with
  | none => db
  | some record =>
    { db with files :=
        jsMapSet db.files id (applyStatusUpdate record status chunkCount) }

/-- The per-status counters built by the loop in getStats (modelled as a
structure since the status set is closed). -/
structure StatusCounts where
  pending : Nat
  processing : Nat
  completed : Nat
  failed : Nat
deriving DecidableEq, Repr

/-- One iteration of the counting loop in getStats. -/
def bumpCount (s : StatusCounts) (st : ProcessingStatus) : StatusCounts :=
  match st with
  | ProcessingStatus.pending => { s with pending := s.pending + 1 }
  | ProcessingStatus.processing => { s with processing := s.processing + 1 }
  | ProcessingStatus.completed => { s with completed := s.completed + 1 }
  | ProcessingStatus.failed => { s with failed := s.failed + 1 }

/-- The result shape of getStats. -/
structure Stats where
  totalFiles : Nat
  uniqueHashes : Nat
  processingStats : StatusCounts
deriving DecidableEq, Repr

/-- SimulatedDatabase.getStats: sizes of the two maps plus the per-status
counts over all records. -/
def getStats (db : DB) : Stats × DB :=
  ({ totalFiles := db.files.length
     uniqueHashes := db.hashIndex.length
     processingStats :=
       (jsMapValues db.files).foldl
         (fun acc f => bumpCount acc f.processing_status)
         { pending := 0, processing := 0, completed := 0, failed := 0 } },
   db)

/-- The default of the `maxSizeBytes` parameter of validateFile:
100 MB. -/
def maxSizeDefault : Nat := 100 * 1024 * 1024

/-- The result shape of validateFile. -/
structure ValidationResult where
  isValid : Bool
  error : Option String
deriving DecidableEq, Repr

/-- fileUtils.validateFile, on the `size` field of the file argument
(the `type` field is read only for logging).  The source's error message
interpolates the sizes in MB; the interpolated numbers are elided here.
Size is checked against the maximum first, emptiness second, exactly as
in the source. -/
def validateFile (size : Nat) (maxSizeBytes : Nat) : ValidationResult :=
  if size > maxSizeBytes then
    { isValid := false
      error := some "File size exceeds maximum allowed size" }
  else if size = 0 then
    { isValid := false, error := some "File is empty" }
  else
    { isValid := true, error := none }

/-- Modelled from the spec: the Fingerprint Engine (Node `crypto`
SHA-256, external to the repository).  The spec requires only a
deterministic digest, collision-free on the inputs in play; it is
modelled by an injective encoding of the byte list into a string, which
is deterministic by construction. -/
def computeFileHash (content : List Nat) : String :=
  String.intercalate "," (content.map (fun b => toString b))

/-- The file value handed to the upload route: display name, raw bytes,
declared MIME type.  `size` is the byte length. -/
structure UploadFile where
  name : String
  content : List Nat
  type : String
deriving DecidableEq, Repr

/-- Byte length of the uploaded file (`File.size`). -/
def UploadFile.size (f : UploadFile) : Nat := f.content.length

/-- fileUtils.generateFileMetadata: metadata for storage; an empty MIME
type falls back to `application/octet-stream` (`||` on a falsy string). -/
def generateFileMetadata (f : UploadFile) (hash : String) : InsertData :=
  { file_name := f.name
    file_hash := hash
    file_size := f.size
    mime_type := if f.type = "" then "application/octet-stream" else f.type
    chunk_count := none
    processing_status := ProcessingStatus.pending }

/-- The JSON responses the POST handler can produce. -/
inductive UploadResponse where
  | invalid (msg : String)
  | ok (duplicate : Bool) (file : FileRecord)
  | serverError (msg : String)
deriving DecidableEq, Repr

/-- The observable outcome of one POST request: the response, the store
state after the request, and the id handed to processFileInBackground
(`none` when no background job was started). -/
structure PostResult where
  response : UploadResponse
  db : DB
  background : Option Nat
deriving DecidableEq, Repr

/-- The POST /api/upload handler of route.ts: validate, hash, look up
the hash, return the existing record as a duplicate, or insert a new
record and kick off background processing.  The try/catch around the
body surfaces an insertFile throw as a 500 `serverError`. -/
def uploadPOST (db : DB) (file : UploadFile) (now : Nat) : PostResult :=
  let validation := validateFile file.size maxSizeDefault
  if validation.isValid = false then
    { response := UploadResponse.invalid (validation.error.getD "")
      db := db
      background := none }
  else
    let fileHash := computeFileHash file.content
    match (findByHash db fileHash).1 with
    | some existingFile =>
      { response := UploadResponse.ok true existingFile
        db := db
        background := none }
    | none =>
      let metadata := generateFileMetadata file fileHash
      let inserted := insertFile db metadata now
      match inserted.1 with
      | Except.ok newFile =>
        { response := UploadResponse.ok false newFile
          db := inserted.2
          background := some newFile.id }
      | Except.error e =>
        { response := UploadResponse.serverError e
          db := inserted.2
          background := none }

/-- The outcome of the external processing job for one record: the job
reports success with a chunk count, reports failure, or throws somewhere
during its execution. -/
inductive JobOutcome where
  | success (chunkCount : Nat)
  | reportedFailure
  | thrown (msg : String)
deriving DecidableEq, Repr

/-- route.ts processFileInBackground: mark the record `processing`, run
the job, then record `completed` with the chunk count on success and
`failed` on a reported failure; the catch clause records `failed` when
the job throws.  The function is total: no failure propagates out. -/
def processFileInBackground (db : DB) (fileId : Nat)
    (outcome : JobOutcome) : DB :=
  let db1 := updateProcessingStatus db fileId ProcessingStatus.processing none
  match outcome with
  | JobOutcome.success n =>
    updateProcessingStatus db1 fileId ProcessingStatus.completed (some n)
  | JobOutcome.reportedFailure =>
    updateProcessingStatus db1 fileId ProcessingStatus.failed none
  | JobOutcome.thrown _ =>
    updateProcessingStatus db1 fileId ProcessingStatus.failed none

/-- The GET /api/files handler of route.ts, after query parsing: the
limit is clamped to the configured maximum 100 (`Math.min`), the offset
is clamped to be non-negative (`Math.max`), then getAllFiles runs. -/
def filesGET (db : DB) (limit offset : Int) : List FileRecord × DB :=
  getAllFiles db (min limit 100) (max offset 0)

/-- Store states reachable from the empty store by any sequence of
inserts and status updates (the two mutating operations). -/
inductive Reachable : DB → Prop where
  | init : Reachable emptyDB
  | insert {db : DB} (fileData : InsertData) (now : Nat) :
      Reachable db → Reachable (insertFile db fileData now).2
  | update {db : DB} (id : Nat) (status : ProcessingStatus)
      (chunkCount : Option Nat) :
      Reachable db → Reachable (updateProcessingStatus db id status chunkCount)

/-! ### Association-list (JS Map) lemmas -/

theorem jsMapGet_eq_none_of_has_false {κ ν : Type} [BEq κ]
    (m : List (κ × ν)) (k : κ) (h : jsMapHas m k = false) :
    jsMapGet m k = none := by
  unfold jsMapGet
  have hfind : m.find? (fun p => p.1 == k) = none := by
    rw [List.find?_eq_none]
    intro p hp hbeq
    have : m.any (fun p => p.1 == k) = true :=
      List.any_eq_true.mpr ⟨p, hp, hbeq⟩
    rw [jsMapHas] at h
    simp [this] at h
  rw [hfind]
  rfl

theorem jsMapGet_mem {κ ν : Type} [BEq κ] [LawfulBEq κ]
    {m : List (κ × ν)} {k : κ} {r : ν} (h : jsMapGet m k = some r) :
    (k, r) ∈ m := by
  unfold jsMapGet at h
  cases hfind : m.find? (fun p => p.1 == k) with
  | none => rw [hfind] at h; cases h
  | some p =>
    rw [hfind] at h
    have hp : p ∈ m := List.mem_of_find?_eq_some hfind
    have hk : (p.1 == k) = true := by
      have hx := List.find?_some hfind
      exact hx
    have hk' : p.1 = k := eq_of_beq hk
    have hr : p.2 = r := by
      simpa using h
    have : p = (k, r) := by
      cases p
      simp_all
    rw [this] at hp
    exact hp

theorem jsMapHas_true_of_get_some {κ ν : Type} [BEq κ] [LawfulBEq κ]
    {m : List (κ × ν)} {k : κ} {r : ν} (h : jsMapGet m k = some r) :
    jsMapHas m k = true := by
  have hmem := jsMapGet_mem h
  exact List.any_eq_true.mpr ⟨(k, r), hmem, by simp⟩

theorem jsMapHas_true_of_mem {κ ν : Type} [BEq κ] [LawfulBEq κ]
    {m : List (κ × ν)} {k : κ} {v : ν} (h : (k, v) ∈ m) :
    jsMapHas m k = true :=
  List.any_eq_true.mpr ⟨(k, v), h, by simp⟩

theorem eq_of_mem_of_keys_nodup {κ ν : Type} {m : List (κ × ν)}
    {k : κ} {v r : ν} (hnd : (m.map Prod.fst).Nodup)
    (h1 : (k, v) ∈ m) (h2 : (k, r) ∈ m) : v = r := by
  induction m with
  | nil => cases h1
  | cons p t ih =>
    rw [List.map_cons, List.nodup_cons] at hnd
    rcases List.mem_cons.mp h1 with h1 | h1
    · rcases List.mem_cons.mp h2 with h2 | h2
      · rw [← h1] at h2
        exact (congrArg Prod.snd h2).symm
      · exfalso
        apply hnd.1
        rw [← h1]
        exact List.mem_map.mpr ⟨(k, r), h2, rfl⟩
    · rcases List.mem_cons.mp h2 with h2 | h2
      · exfalso
        apply hnd.1
        rw [← h2]
        exact List.mem_map.mpr ⟨(k, v), h1, rfl⟩
      · exact ih hnd.2 h1 h2

theorem jsMapGet_eq_some_of_mem {κ ν : Type} [BEq κ] [LawfulBEq κ]
    {m : List (κ × ν)} {k : κ} {v : ν}
    (hnd : (m.map Prod.fst).Nodup) (hmem : (k, v) ∈ m) :
    jsMapGet m k = some v := by
  unfold jsMapGet
  cases hfind : m.find? (fun p => p.1 == k) with
  | none =>
    exfalso
    rw [List.find?_eq_none] at hfind
    exact absurd (by simp : ((k, v).1 == k) = true) (by simpa using hfind _ hmem)
  | some p =>
    have hp : p ∈ m := List.mem_of_find?_eq_some hfind
    have hk : p.1 = k := by
      have hx := List.find?_some hfind
      exact eq_of_beq hx
    have hpmem : (k, p.2) ∈ m := by
      have : p = (k, p.2) := by cases p; simp_all
      rw [← this]; exact hp
    have : p.2 = v := eq_of_mem_of_keys_nodup hnd hpmem hmem
    simp [this]

theorem jsMapSet_of_has_false {κ ν : Type} [BEq κ]
    {m : List (κ × ν)} {k : κ} (v : ν) (h : jsMapHas m k = false) :
    jsMapSet m k v = m ++ [(k, v)] := by
  unfold jsMapSet
  rw [h]
  simp

theorem jsMapSet_of_has_true {κ ν : Type} [BEq κ]
    {m : List (κ × ν)} {k : κ} (v : ν) (h : jsMapHas m k = true) :
    jsMapSet m k v = m.map (fun p => if p.1 == k then (p.1, v) else p) := by
  unfold jsMapSet
  rw [h]
  simp

theorem jsMapSet_map_fst_of_has {κ ν : Type} [BEq κ]
    {m : List (κ × ν)} {k : κ} (v : ν) (h : jsMapHas m k = true) :
    (jsMapSet m k v).map Prod.fst = m.map Prod.fst := by
  rw [jsMapSet_of_has_true v h, List.map_map]
  apply List.map_congr_left
  intro p _
  by_cases hk : (p.1 == k) = true
  · simp [hk]
  · simp [hk]

theorem jsMapGet_map_replace {κ ν : Type} [BEq κ]
    (m : List (κ × ν)) (k : κ) (v : ν) :
    jsMapGet (m.map (fun p => if p.1 == k then (p.1, v) else p)) k
      = (jsMapGet m k).map (fun _ => v) := by
  induction m with
  | nil => rfl
  | cons q t ih =>
    by_cases hq : (q.1 == k) = true
    · simp [jsMapGet, List.find?_cons, hq]
    · simp only [List.map_cons, if_neg hq]
      simp only [jsMapGet, List.find?_cons] at ih ⊢
      rw [show (q.1 == k) = false by simpa using hq]
      exact ih

theorem jsMapGet_jsMapSet_self {κ ν : Type} [BEq κ] [LawfulBEq κ]
    (m : List (κ × ν)) (k : κ) (v : ν) :
    jsMapGet (jsMapSet m k v) k = some v := by
  by_cases h : jsMapHas m k = true
  · rw [jsMapSet_of_has_true v h, jsMapGet_map_replace]
    rw [jsMapHas, List.any_eq_true] at h
    obtain ⟨p, hp, hpk⟩ := h
    have hfs : (List.find? (fun p => p.1 == k) m).isSome = true :=
      List.find?_isSome.mpr ⟨p, hp, hpk⟩
    obtain ⟨q, hq⟩ := Option.isSome_iff_exists.mp hfs
    unfold jsMapGet
    rw [hq]
    rfl
  · rw [jsMapSet_of_has_false v (by simpa using h)]
    unfold jsMapGet
    have hnone : m.find? (fun p => p.1 == k) = none := by
      rw [List.find?_eq_none]
      intro p hp hbeq
      exact h (List.any_eq_true.mpr ⟨p, hp, hbeq⟩)
    rw [List.find?_append, hnone]
    simp

/-! ### Basic facts about the record helpers -/

theorem applyStatusUpdate_file_hash (r : FileRecord) (st : ProcessingStatus)
    (c : Option Nat) : (applyStatusUpdate r st c).file_hash = r.file_hash := by
  cases c <;> rfl

theorem applyStatusUpdate_status (r : FileRecord) (st : ProcessingStatus)
    (c : Option Nat) : (applyStatusUpdate r st c).processing_status = st := by
  cases c <;> rfl

theorem applyStatusUpdate_chunk_none (r : FileRecord) (st : ProcessingStatus) :
    (applyStatusUpdate r st none).chunk_count = r.chunk_count := rfl

theorem jsMapHas_append {κ ν : Type} [BEq κ]
    (m₁ m₂ : List (κ × ν)) (k : κ) :
    jsMapHas (m₁ ++ m₂) k = (jsMapHas m₁ k || jsMapHas m₂ k) := by
  unfold jsMapHas
  exact List.any_append

/-! ### The store invariant -/

/-- Invariant of every reachable store state: ids are below the fresh-id
counter and pairwise distinct, the two maps have the same size, record
fingerprints are pairwise distinct, every record's fingerprint is a key
of the hash index, and every hash-index entry points back at a record
carrying that fingerprint. -/
structure Inv (db : DB) : Prop where
  idFresh : ∀ p ∈ db.files, p.1 < db.nextId
  idNodup : (db.files.map Prod.fst).Nodup
  sizeEq : db.files.length = db.hashIndex.length
  hashNodup : (db.files.map (fun p => p.2.file_hash)).Nodup
  recHasIdx : ∀ p ∈ db.files, jsMapHas db.hashIndex p.2.file_hash = true
  idxSound :
    ∀ q ∈ db.hashIndex, ∃ p ∈ db.files, p.1 = q.2 ∧ p.2.file_hash = q.1

theorem inv_emptyDB : Inv emptyDB := by
  constructor <;> simp [emptyDB]

theorem files_has_nextId_false {db : DB} (hInv : Inv db) :
    jsMapHas db.files db.nextId = false := by
  rw [jsMapHas, List.any_eq_false]
  intro p hp
  simp only [beq_iff_eq]
  exact Nat.ne_of_lt (hInv.idFresh p hp)

theorem insertFile_eq_of_has_false {db : DB} {d : InsertData} (now : Nat)
    (h : jsMapHas db.hashIndex d.file_hash = false) :
    insertFile db d now =
      (Except.ok (mkRecord db.nextId d now),
       { files := jsMapSet db.files db.nextId (mkRecord db.nextId d now)
         hashIndex := jsMapSet db.hashIndex d.file_hash db.nextId
         nextId := db.nextId + 1 }) := by
  unfold insertFile
  rw [h]
  simp

theorem insertFile_eq_of_has_true {db : DB} {d : InsertData} (now : Nat)
    (h : jsMapHas db.hashIndex d.file_hash = true) :
    insertFile db d now =
      (Except.error
        ("File with hash " ++ d.file_hash ++ " already exists"), db) := by
  unfold insertFile
  rw [h]
  simp

theorem inv_insertFile {db : DB} (hInv : Inv db) (d : InsertData) (now : Nat) :
    Inv (insertFile db d now).2 := by
  by_cases hhas : jsMapHas db.hashIndex d.file_hash = true
  · rw [insertFile_eq_of_has_true now hhas]
    exact hInv
  · have hhas' : jsMapHas db.hashIndex d.file_hash = false := by
      simpa using hhas
    rw [insertFile_eq_of_has_false now hhas']
    have hfset :
        jsMapSet db.files db.nextId (mkRecord db.nextId d now)
          = db.files ++ [(db.nextId, mkRecord db.nextId d now)] :=
      jsMapSet_of_has_false _ (files_has_nextId_false hInv)
    have hiset :
        jsMapSet db.hashIndex d.file_hash db.nextId
          = db.hashIndex ++ [(d.file_hash, db.nextId)] :=
      jsMapSet_of_has_false _ hhas'
    constructor
    · intro p hp
      simp only [hfset] at hp
      rcases List.mem_append.mp hp with hp | hp
      · exact Nat.lt_succ_of_lt (hInv.idFresh p hp)
      · simp only [List.mem_singleton] at hp
        rw [hp]
        exact Nat.lt_succ_self _
    · simp only [hfset, List.map_append]
      refine List.Nodup.append hInv.idNodup (by simp) ?_
      intro a ha hb
      simp only [List.map_singleton, List.mem_singleton] at hb
      obtain ⟨p, hp, hpa⟩ := List.mem_map.mp ha
      have := hInv.idFresh p hp
      omega
    · simp [hfset, hiset, hInv.sizeEq]
    · simp only [hfset, List.map_append]
      refine List.Nodup.append hInv.hashNodup (by simp) ?_
      intro a ha hb
      simp only [List.map_singleton, List.mem_singleton] at hb
      obtain ⟨p, hp, hpa⟩ := List.mem_map.mp ha
      have := hInv.recHasIdx p hp
      rw [hpa, hb] at this
      have hmk : (mkRecord db.nextId d now).file_hash = d.file_hash := rfl
      rw [hmk] at this
      rw [this] at hhas'
      cases hhas'
    · intro p hp
      simp only [hfset] at hp
      simp only [hiset, jsMapHas_append]
      rcases List.mem_append.mp hp with hp | hp
      · rw [hInv.recHasIdx p hp]
        rfl
      · simp only [List.mem_singleton] at hp
        rw [hp]
        simp [jsMapHas, mkRecord]
    · intro q hq
      simp only [hiset] at hq
      rcases List.mem_append.mp hq with hq | hq
      · obtain ⟨p, hp, hp1, hp2⟩ := hInv.idxSound q hq
        exact ⟨p, by simp [hfset, List.mem_append, hp], hp1, hp2⟩
      · simp only [List.mem_singleton] at hq
        refine ⟨(db.nextId, mkRecord db.nextId d now), ?_, ?_, ?_⟩
        · simp [hfset]
        · rw [hq]
        · rw [hq]
          rfl

theorem inv_set_record {db : DB} (hInv : Inv db) {id : Nat}
    {r v : FileRecord} (hget : jsMapGet db.files id = some r)
    (hhash : v.file_hash = r.file_hash) :
    Inv { db with files := jsMapSet db.files id v } := by
  have hhasid : jsMapHas db.files id = true := jsMapHas_true_of_get_some hget
  have hrepl := jsMapSet_of_has_true v hhasid
  have hmem_r : (id, r) ∈ db.files := jsMapGet_mem hget
  have hpt : ∀ p ∈ db.files,
      ((if p.1 == id then (p.1, v) else p) : Nat × FileRecord).1 = p.1 ∧
      ((if p.1 == id then (p.1, v) else p) : Nat × FileRecord).2.file_hash
        = p.2.file_hash := by
    intro p hp
    by_cases hk : (p.1 == id) = true
    · have hk' : p.1 = id := eq_of_beq hk
      have hpmem : (id, p.2) ∈ db.files := by
        rw [← hk']
        exact hp
      have hp2 : p.2 = r := eq_of_mem_of_keys_nodup hInv.idNodup hpmem hmem_r
      simp [hk, hhash, hp2]
    · simp [hk]
  have hmaphash :
      (jsMapSet db.files id v).map (fun p => p.2.file_hash)
        = db.files.map (fun p => p.2.file_hash) := by
    rw [hrepl, List.map_map]
    apply List.map_congr_left
    intro p hp
    exact (hpt p hp).2
  constructor
  · intro p hp
    simp only [hrepl] at hp
    obtain ⟨q, hq, hqe⟩ := List.mem_map.mp hp
    rw [← hqe]
    have := (hpt q hq).1
    simp only [this]
    exact hInv.idFresh q hq
  · simp only
    rw [jsMapSet_map_fst_of_has v hhasid]
    exact hInv.idNodup
  · simp only [hrepl, List.length_map]
    exact hInv.sizeEq
  · simp only
    rw [hmaphash]
    exact hInv.hashNodup
  · intro p hp
    simp only [hrepl] at hp
    obtain ⟨q, hq, hqe⟩ := List.mem_map.mp hp
    rw [← hqe]
    have := (hpt q hq).2
    simp only [this]
    exact hInv.recHasIdx q hq
  · intro q hq
    obtain ⟨p, hp, hp1, hp2⟩ := hInv.idxSound q hq
    refine ⟨(if p.1 == id then (p.1, v) else p), ?_, ?_, ?_⟩
    · rw [hrepl]
      exact List.mem_map_of_mem _ hp
    · rw [(hpt p hp).1]
      exact hp1
    · rw [(hpt p hp).2]
      exact hp2

theorem inv_updateProcessingStatus {db : DB} (hInv : Inv db) (id : Nat)
    (st : ProcessingStatus) (c : Option Nat) :
    Inv (updateProcessingStatus db id st c) := by
  unfold updateProcessingStatus
  cases hget : jsMapGet db.files id with
  | none => exact hInv
  | some r =>
    exact inv_set_record hInv hget (applyStatusUpdate_file_hash r st c)

theorem reachable_inv {db : DB} (h : Reachable db) : Inv db := by
  induction h with
  | init => exact inv_emptyDB
  | insert d now _ ih => exact inv_insertFile ih d now
  | update id st c _ ih => exact inv_updateProcessingStatus ih id st c

/-! ### Counting, filtering and idempotence lemmas -/

/-- The sum of the per-status counters (`sum(countsByStatus.values())`). -/
def countsSum (s : StatusCounts) : Nat :=
  s.pending + s.processing + s.completed + s.failed

theorem countsSum_bumpCount (s : StatusCounts) (st : ProcessingStatus) :
    countsSum (bumpCount s st) = countsSum s + 1 := by
  cases st <;> simp only [bumpCount, countsSum] <;> omega

theorem countsSum_foldl (l : List FileRecord) (init : StatusCounts) :
    countsSum (l.foldl (fun acc f => bumpCount acc f.processing_status) init)
      = countsSum init + l.length := by
  induction l generalizing init with
  | nil => simp
  | cons x t ih =>
    simp only [List.foldl_cons, List.length_cons]
    rw [ih, countsSum_bumpCount]
    omega

theorem filter_beq_length_le_one {α : Type} (l : List α) (f : α → String)
    (x : String) (h : (l.map f).Nodup) :
    (l.filter (fun a => f a == x)).length ≤ 1 := by
  induction l with
  | nil => simp
  | cons a t ih =>
    rw [List.map_cons, List.nodup_cons] at h
    by_cases hax : (f a == x) = true
    · have hfa : f a = x := eq_of_beq hax
      have hnil : t.filter (fun b => f b == x) = [] := by
        rw [List.filter_eq_nil_iff]
        intro b hb hbx
        apply h.1
        have hfb : f b = x := eq_of_beq hbx
        rw [hfa, ← hfb]
        exact List.mem_map_of_mem f hb
      simp only [List.filter_cons, hax, if_true, hnil]
      simp
    · have hax' : (f a == x) = false := by simpa using hax
      simp only [List.filter_cons, hax', Bool.false_eq_true, if_false]
      exact ih h.2

theorem jsMapHas_map_replace {κ ν : Type} [BEq κ]
    (m : List (κ × ν)) (k k' : κ) (v : ν) :
    jsMapHas (m.map (fun p => if p.1 == k then (p.1, v) else p)) k'
      = jsMapHas m k' := by
  induction m with
  | nil => rfl
  | cons q t ih =>
    unfold jsMapHas at ih ⊢
    simp only [List.map_cons, List.any_cons]
    rw [ih]
    congr 1
    by_cases hk : (q.1 == k) = true
    · simp [hk]
    · simp [hk]

theorem jsMapSet_idem {κ ν : Type} [BEq κ] [LawfulBEq κ]
    (m : List (κ × ν)) (k : κ) (v : ν) :
    jsMapSet (jsMapSet m k v) k v = jsMapSet m k v := by
  by_cases h : jsMapHas m k = true
  · rw [jsMapSet_of_has_true v h]
    rw [jsMapSet_of_has_true v
      (by rw [jsMapHas_map_replace]; exact h), List.map_map]
    apply List.map_congr_left
    intro p _
    by_cases hk : (p.1 == k) = true
    · simp [Function.comp, hk]
    · simp [Function.comp, hk]
  · have h' : jsMapHas m k = false := by simpa using h
    rw [jsMapSet_of_has_false v h']
    have h2 : jsMapHas (m ++ [(k, v)]) k = true := by
      rw [jsMapHas_append]
      simp [jsMapHas]
    rw [jsMapSet_of_has_true v h2, List.map_append]
    have hW : jsMapHas m k = false := h'
    unfold jsMapHas at hW
    rw [List.any_eq_false] at hW
    congr 1
    · have hid :
          List.map (fun p => if (p.1 == k) = true then (p.1, v) else p) m
            = List.map id m := by
        apply List.map_congr_left
        intro p hp
        simp [hW p hp]
      rw [hid, List.map_id]
    · simp

theorem applyStatusUpdate_idem (r : FileRecord) (st : ProcessingStatus)
    (c : Option Nat) :
    applyStatusUpdate (applyStatusUpdate r st c) st c
      = applyStatusUpdate r st c := by
  cases c <;> rfl

theorem update_idempotent (db : DB) (id : Nat) (st : ProcessingStatus)
    (c : Option Nat) :
    updateProcessingStatus (updateProcessingStatus db id st c) id st c
      = updateProcessingStatus db id st c := by
  cases hget : jsMapGet db.files id with
  | none =>
    have h0 : updateProcessingStatus db id st c = db := by
      unfold updateProcessingStatus
      rw [hget]
    rw [h0, h0]
  | some r =>
    have h1 : updateProcessingStatus db id st c
        = { db with
            files := jsMapSet db.files id (applyStatusUpdate r st c) } := by
      unfold updateProcessingStatus
      rw [hget]
    rw [h1]
    have h2 : jsMapGet (jsMapSet db.files id (applyStatusUpdate r st c)) id
        = some (applyStatusUpdate r st c) := jsMapGet_jsMapSet_self _ _ _
    unfold updateProcessingStatus
    simp only [h2, applyStatusUpdate_idem, jsMapSet_idem]

theorem update_overwrites {db : DB} {id : Nat} {r : FileRecord}
    (hget : jsMapGet db.files id = some r) (st' : ProcessingStatus)
    (c : Option Nat) :
    (jsMapGet (updateProcessingStatus db id st' c).files id).map
      FileRecord.processing_status = some st' := by
  unfold updateProcessingStatus
  rw [hget]
  simp only
  rw [jsMapGet_jsMapSet_self]
  simp [applyStatusUpdate_status]

theorem update_none_chunk_map {db : DB} (hInv : Inv db) (id : Nat)
    (st : ProcessingStatus) :
    (updateProcessingStatus db id st none).files.map
        (fun p => (p.1, p.2.chunk_count))
      = db.files.map (fun p => (p.1, p.2.chunk_count)) := by
  unfold updateProcessingStatus
  cases hget : jsMapGet db.files id with
  | none => rfl
  | some r =>
    simp only
    rw [jsMapSet_of_has_true _ (jsMapHas_true_of_get_some hget), List.map_map]
    apply List.map_congr_left
    intro p hp
    by_cases hk : (p.1 == id) = true
    · have hk' : p.1 = id := eq_of_beq hk
      have hpm : (id, p.2) ∈ db.files := by
        rw [← hk']
        exact hp
      have hp2 : p.2 = r :=
        eq_of_mem_of_keys_nodup hInv.idNodup hpm (jsMapGet_mem hget)
      simp [Function.comp, hk, applyStatusUpdate_chunk_none, hp2]
    · simp [Function.comp, hk]

theorem jsSlice_sublist {α : Type} (xs : List α) (s e : Int) :
    (jsSlice xs s e).Sublist xs := by
  unfold jsSlice
  exact (List.drop_sublist _ _).trans (List.take_sublist _ _)

/-! ### Concrete fixtures used by witnesses and counterexamples -/

/-- A concrete insertion payload. -/
def cexData : InsertData :=
  { file_name := "a.txt"
    file_hash := "h1"
    file_size := 3
    mime_type := "text/plain"
    chunk_count := none
    processing_status := ProcessingStatus.pending }

/-- The store after inserting `cexData` into the empty store at time 0:
one record with id 0, status pending, no chunk count. -/
def cexDB : DB := (insertFile emptyDB cexData 0).2

/-- `cexDB` after the record completed with 5 chunks. -/
def cexDB2 : DB :=
  updateProcessingStatus cexDB 0 ProcessingStatus.completed (some 5)

/-! ### Claim theorems -/

/-- C1: inserting a fingerprint that is already present fails with a
conflict error and leaves the store unchanged; inserting a fresh
fingerprint succeeds and appends exactly one record carrying it, so that
every reachable store holds at most one record per fingerprint (and
exactly one for each fingerprint just inserted). -/
theorem insert_unique_per_fingerprint (db : DB) (d : InsertData) (now : Nat)
    (hdb : Reachable db) :
    (jsMapHas db.hashIndex d.file_hash = true →
      (insertFile db d now).1 =
        Except.error ("File with hash " ++ d.file_hash ++ " already exists")
      ∧ (insertFile db d now).2 = db)
    ∧ (jsMapHas db.hashIndex d.file_hash = false →
      (insertFile db d now).1 = Except.ok (mkRecord db.nextId d now)
      ∧ (mkRecord db.nextId d now).file_hash = d.file_hash
      ∧ (insertFile db d now).2.files
          = db.files ++ [(db.nextId, mkRecord db.nextId d now)]
      ∧ ((insertFile db d now).2.files.filter
          (fun p => p.2.file_hash == d.file_hash)).length = 1)
    ∧ (∀ h : String,
        (db.files.filter (fun p => p.2.file_hash == h)).length ≤ 1) := by
  have hInv := reachable_inv hdb
  refine ⟨?_, ?_, ?_⟩
  · intro hhas
    rw [insertFile_eq_of_has_true now hhas]
    exact ⟨rfl, rfl⟩
  · intro hhas
    rw [insertFile_eq_of_has_false now hhas]
    have hfset :
        jsMapSet db.files db.nextId (mkRecord db.nextId d now)
          = db.files ++ [(db.nextId, mkRecord db.nextId d now)] :=
      jsMapSet_of_has_false _ (files_has_nextId_false hInv)
    refine ⟨rfl, rfl, hfset, ?_⟩
    simp only [hfset, List.filter_append]
    have hold : db.files.filter (fun p => p.2.file_hash == d.file_hash)
        = [] := by
      rw [List.filter_eq_nil_iff]
      intro p hp hpx
      have hpe : p.2.file_hash = d.file_hash := eq_of_beq hpx
      have hx := hInv.recHasIdx p hp
      rw [hpe] at hx
      rw [hx] at hhas
      cases hhas
    rw [hold]
    simp [mkRecord]
  · intro h
    exact filter_beq_length_le_one db.files (fun p => p.2.file_hash) h
      hInv.hashNodup

/-- Witness for C1: inserting into the empty store (fingerprint not yet
present) succeeds and yields exactly one record with that fingerprint. -/
theorem insert_unique_per_fingerprint_w :
    (insertFile emptyDB cexData 0).1 =
      Except.ok (mkRecord emptyDB.nextId cexData 0)
    ∧ (mkRecord emptyDB.nextId cexData 0).file_hash = cexData.file_hash
    ∧ (insertFile emptyDB cexData 0).2.files
        = emptyDB.files ++ [(emptyDB.nextId, mkRecord emptyDB.nextId cexData 0)]
    ∧ ((insertFile emptyDB cexData 0).2.files.filter
        (fun p => p.2.file_hash == cexData.file_hash)).length = 1 :=
  (insert_unique_per_fingerprint emptyDB cexData 0 Reachable.init).2.1 rfl

/-- C9: the files listing, after the route's clamping of the parsed
query parameters (limit to the configured maximum 100, offset to ≥ 0),
returns records ordered newest-first by `created_at`. -/
theorem list_sorted_clamped (db : DB) (l o : Int) :
    List.Pairwise (fun a b => b.created_at ≤ a.created_at) (filesGET db l o).1
    ∧ (∀ r ∈ (filesGET db l o).1, r ∈ jsMapValues db.files)
    ∧ filesGET db l o = getAllFiles db (min l 100) (max o 0) := by
  refine ⟨?_, ?_, rfl⟩
  · have htrans : ∀ a b c : FileRecord, newestFirst a b = true →
        newestFirst b c = true → newestFirst a c = true := by
      intro a b c hab hbc
      simp only [newestFirst, decide_eq_true_eq] at *
      omega
    have htotal : ∀ a b : FileRecord,
        (newestFirst a b || newestFirst b a) = true := by
      intro a b
      simp only [newestFirst, Bool.or_eq_true, decide_eq_true_eq]
      omega
    have hsorted :
        List.Pairwise (fun a b => newestFirst a b = true)
          ((jsMapValues db.files).mergeSort newestFirst) :=
      List.sorted_mergeSort htrans htotal _
    have hpair :
        List.Pairwise (fun a b => newestFirst a b = true) (filesGET db l o).1 := by
      apply List.Pairwise.sublist _ hsorted
      unfold filesGET getAllFiles
      exact jsSlice_sublist _ _ _
    refine hpair.imp ?_
    intro a b hab
    simpa [newestFirst] using hab
  · intro r hr
    have hsub : ((filesGET db l o).1).Sublist
        ((jsMapValues db.files).mergeSort newestFirst) := by
      unfold filesGET getAllFiles
      exact jsSlice_sublist _ _ _
    have hmem := List.Sublist.mem hr hsub
    exact (List.mergeSort_perm (jsMapValues db.files) newestFirst).mem_iff.mp
      hmem

/-- C10: the four query operations (findByHash, findById, getAllFiles,
getStats) return the store state unchanged: no record and no index entry
is created, removed or modified by any of them. -/
theorem queries_leave_store_unchanged (db : DB) (h : String) (i : Nat)
    (l o : Int) :
    (findByHash db h).2 = db ∧ (findById db i).2 = db ∧
    (getAllFiles db l o).2 = db ∧ (getStats db).2 = db := by
  refine ⟨?_, rfl, rfl, rfl⟩
  unfold findByHash
  cases jsMapGet db.hashIndex h <;> rfl

/-- The id and chunk count of every stored record, in store order. -/
def chunkMap (db : DB) : List (Nat × Option Nat) :=
  db.files.map (fun p => (p.1, p.2.chunk_count))

/-- C3 counterexample: a status update into `failed` that supplies a
chunk count does change `chunk_count` (from `none` to `some 5`), so a
non-`completed` transition can change the field. -/
theorem chunkCount_set_on_failed_cex :
    (jsMapGet
        (updateProcessingStatus cexDB 0 ProcessingStatus.failed (some 5)).files
        0).map FileRecord.chunk_count = some (some 5)
    ∧ (jsMapGet cexDB.files 0).map FileRecord.chunk_count = some none
    ∧ (jsMapGet
        (updateProcessingStatus cexDB 0 ProcessingStatus.failed (some 5)).files
        0).map FileRecord.processing_status
      = some ProcessingStatus.failed := by
  refine ⟨?_, ?_, ?_⟩ <;> rfl

/-- C3 (amended): a status update changes `chunk_count` only when the
optional chunk-count argument is supplied; an update that omits it never
changes any record's `chunk_count`, whatever the new status — and the
background coordinator omits it on every non-`completed` transition, so
its failure paths never change any `chunk_count`. -/
theorem chunkCount_unchanged_without_argument (db : DB) (hdb : Reachable db)
    (id fid : Nat) (st : ProcessingStatus) (msg : String) :
    chunkMap (updateProcessingStatus db id st none) = chunkMap db
    ∧ chunkMap (processFileInBackground db fid JobOutcome.reportedFailure)
        = chunkMap db
    ∧ chunkMap (processFileInBackground db fid (JobOutcome.thrown msg))
        = chunkMap db := by
  have hInv := reachable_inv hdb
  have hInv1 :=
    inv_updateProcessingStatus hInv fid ProcessingStatus.processing none
  refine ⟨?_, ?_, ?_⟩
  · exact update_none_chunk_map hInv id st
  · unfold processFileInBackground chunkMap
    rw [update_none_chunk_map hInv1 fid ProcessingStatus.failed,
      update_none_chunk_map hInv fid ProcessingStatus.processing]
  · unfold processFileInBackground chunkMap
    rw [update_none_chunk_map hInv1 fid ProcessingStatus.failed,
      update_none_chunk_map hInv fid ProcessingStatus.processing]

/-- Witness for the amended C3, at the one-record store. -/
theorem chunkCount_unchanged_without_argument_w :
    chunkMap (updateProcessingStatus cexDB 0 ProcessingStatus.failed none)
      = chunkMap cexDB
    ∧ chunkMap (processFileInBackground cexDB 0 JobOutcome.reportedFailure)
        = chunkMap cexDB
    ∧ chunkMap (processFileInBackground cexDB 0 (JobOutcome.thrown "boom"))
        = chunkMap cexDB :=
  chunkCount_unchanged_without_argument cexDB
    (Reachable.insert cexData 0 Reachable.init) 0 0
    ProcessingStatus.failed "boom"

/-- C4 counterexample: after a record reached the terminal status
`completed`, applying the other terminal status `failed` silently
overwrites the stored status (updateProcessingStatus has no error
outcome at all), instead of raising a StateConflictError. -/
theorem terminal_overwrite_cex :
    (jsMapGet cexDB2.files 0).map FileRecord.processing_status
      = some ProcessingStatus.completed
    ∧ (jsMapGet
        (updateProcessingStatus cexDB2 0 ProcessingStatus.failed none).files
        0).map FileRecord.processing_status
      = some ProcessingStatus.failed := by
  exact ⟨rfl, rfl⟩

/-- C4 (amended): re-applying the same status with the same payload is
accepted and idempotent, but applying a different terminal status after
one has been set silently overwrites the stored status; no
StateConflictError exists in the code (updateProcessingStatus is total
and never fails). -/
theorem terminal_reapply_idempotent_overwrite (db : DB) (id : Nat)
    (st st' : ProcessingStatus) (c c' : Option Nat) (r : FileRecord)
    (hget : jsMapGet db.files id = some r) :
    updateProcessingStatus (updateProcessingStatus db id st c) id st c
      = updateProcessingStatus db id st c
    ∧ (jsMapGet (updateProcessingStatus db id st' c').files id).map
        FileRecord.processing_status = some st' :=
  ⟨update_idempotent db id st c, update_overwrites hget st' c'⟩

/-- Witness for the amended C4, at the one-record store with a completed
record: re-applying `completed` is idempotent, and `failed` overwrites. -/
theorem terminal_reapply_idempotent_overwrite_w :
    updateProcessingStatus
        (updateProcessingStatus cexDB2 0 ProcessingStatus.completed (some 5))
        0 ProcessingStatus.completed (some 5)
      = updateProcessingStatus cexDB2 0 ProcessingStatus.completed (some 5)
    ∧ (jsMapGet
        (updateProcessingStatus cexDB2 0 ProcessingStatus.failed none).files
        0).map FileRecord.processing_status = some ProcessingStatus.failed :=
  terminal_reapply_idempotent_overwrite cexDB2 0 ProcessingStatus.completed
    ProcessingStatus.failed (some 5) none
    (applyStatusUpdate (mkRecord 0 cexData 0) ProcessingStatus.completed
      (some 5))
    rfl

/-- C6: in every store state reachable by inserts and status updates,
getStats reports uniqueHashes equal to totalFiles, and the per-status
counts sum to totalFiles. -/
theorem stats_consistent (db : DB) (hdb : Reachable db) :
    (getStats db).1.uniqueHashes = (getStats db).1.totalFiles
    ∧ countsSum (getStats db).1.processingStats = (getStats db).1.totalFiles := by
  have hInv := reachable_inv hdb
  constructor
  · simpa [getStats] using hInv.sizeEq.symm
  · simp only [getStats]
    rw [countsSum_foldl]
    simp [jsMapValues, countsSum]

/-- Witness for C6 at the empty store. -/
theorem stats_consistent_w :
    (getStats emptyDB).1.uniqueHashes = (getStats emptyDB).1.totalFiles
    ∧ countsSum (getStats emptyDB).1.processingStats
        = (getStats emptyDB).1.totalFiles :=
  stats_consistent emptyDB Reachable.init

/-- C8: whatever way the background job fails for an existing record —
reporting failure or throwing anywhere during its execution — the
coordinator records the terminal status `failed` for that record; the
coordinator itself is a total function, so no failure propagates out of
it. -/
theorem background_failure_records_failed (db : DB) (fid : Nat)
    (outcome : JobOutcome) (hmem : jsMapHas db.files fid = true)
    (hfail : outcome = JobOutcome.reportedFailure
      ∨ ∃ msg, outcome = JobOutcome.thrown msg) :
    (jsMapGet (processFileInBackground db fid outcome).files fid).map
      FileRecord.processing_status = some ProcessingStatus.failed := by
  obtain ⟨r, hget⟩ : ∃ r, jsMapGet db.files fid = some r := by
    rw [jsMapHas, List.any_eq_true] at hmem
    obtain ⟨p, hp, hpk⟩ := hmem
    have hfs : (List.find? (fun p => p.1 == fid) db.files).isSome = true :=
      List.find?_isSome.mpr ⟨p, hp, hpk⟩
    obtain ⟨q, hq⟩ := Option.isSome_iff_exists.mp hfs
    refine ⟨q.2, ?_⟩
    unfold jsMapGet
    rw [hq]
    rfl
  have h1 : updateProcessingStatus db fid ProcessingStatus.processing none
      = { db with
          files :=
            jsMapSet db.files fid
              (applyStatusUpdate r ProcessingStatus.processing none) } := by
    unfold updateProcessingStatus
    rw [hget]
  have hget1 :
      jsMapGet (updateProcessingStatus db fid
        ProcessingStatus.processing none).files fid
      = some (applyStatusUpdate r ProcessingStatus.processing none) := by
    rw [h1]
    exact jsMapGet_jsMapSet_self _ _ _
  rcases hfail with hf | ⟨msg, hf⟩ <;> subst hf <;>
    exact update_overwrites hget1 ProcessingStatus.failed none

/-- Witness for C8: a thrown job on the one-record store leaves the
record `failed`. -/
theorem background_failure_records_failed_w :
    (jsMapGet
        (processFileInBackground cexDB 0 (JobOutcome.thrown "boom")).files
        0).map FileRecord.processing_status
      = some ProcessingStatus.failed :=
  background_failure_records_failed cexDB 0 (JobOutcome.thrown "boom") rfl
    (Or.inr ⟨"boom", rfl⟩)

/-! ### Upload-route reduction helpers -/

theorem validateFile_ok (f : UploadFile) (hne : f.content ≠ [])
    (hsize : f.content.length ≤ maxSizeDefault) :
    validateFile f.size maxSizeDefault =
      { isValid := true, error := none } := by
  unfold validateFile
  have h1 : ¬ (f.size > maxSizeDefault) := by
    simp only [UploadFile.size]
    omega
  have h2 : ¬ (f.size = 0) := by
    simp only [UploadFile.size]
    intro hc
    exact hne (List.length_eq_zero.mp hc)
  rw [if_neg h1, if_neg h2]

theorem uploadPOST_valid_eq (db : DB) (f : UploadFile) (now : Nat)
    (hvalid : validateFile f.size maxSizeDefault =
      { isValid := true, error := none }) :
    uploadPOST db f now =
      match (findByHash db (computeFileHash f.content)).1 with
      | some existingFile =>
        { response := UploadResponse.ok true existingFile
          db := db
          background := none }
      | none =>
        match (insertFile db
            (generateFileMetadata f (computeFileHash f.content)) now).1 with
        | Except.ok newFile =>
          { response := UploadResponse.ok false newFile
            db := (insertFile db
              (generateFileMetadata f (computeFileHash f.content)) now).2
            background := some newFile.id }
        | Except.error e =>
          { response := UploadResponse.serverError e
            db := (insertFile db
              (generateFileMetadata f (computeFileHash f.content)) now).2
            background := none } := by
  unfold uploadPOST
  rw [hvalid]
  rfl

/-- C7: empty content is rejected with the is-empty validation error and
over-limit content with the exceeds-maximum validation error; in both
cases the store is untouched (no record created) and no background
processing is started. -/
theorem upload_rejects_invalid (db : DB) (f : UploadFile) (now : Nat) :
    (f.size = 0 →
      uploadPOST db f now =
        { response := UploadResponse.invalid "File is empty"
          db := db
          background := none })
    ∧ (f.size > maxSizeDefault →
      uploadPOST db f now =
        { response :=
            UploadResponse.invalid "File size exceeds maximum allowed size"
          db := db
          background := none }) := by
  constructor
  · intro h0
    have hv : validateFile f.size maxSizeDefault =
        { isValid := false, error := some "File is empty" } := by
      unfold validateFile
      rw [h0, if_neg (by decide), if_pos rfl]
    unfold uploadPOST
    rw [hv]
    rfl
  · intro hbig
    have hv : validateFile f.size maxSizeDefault =
        { isValid := false
          error := some "File size exceeds maximum allowed size" } := by
      unfold validateFile
      rw [if_pos hbig]
    unfold uploadPOST
    rw [hv]
    rfl

/-- Witness for C7: the empty upload and an oversized upload are both
rejected without touching the empty store. -/
theorem upload_rejects_invalid_w :
    uploadPOST emptyDB { name := "e", content := [], type := "t" } 0 =
      { response := UploadResponse.invalid "File is empty"
        db := emptyDB
        background := none }
    ∧ uploadPOST emptyDB
        { name := "b"
          content := List.replicate (maxSizeDefault + 1) 0
          type := "t" } 0 =
      { response :=
          UploadResponse.invalid "File size exceeds maximum allowed size"
        db := emptyDB
        background := none } :=
  ⟨(upload_rejects_invalid emptyDB
      { name := "e", content := [], type := "t" } 0).1 rfl,
   (upload_rejects_invalid emptyDB
      { name := "b"
        content := List.replicate (maxSizeDefault + 1) 0
        type := "t" } 0).2
    (by simp [UploadFile.size])⟩

/-- C2: uploading the same non-empty, within-limit content twice from
the empty store returns the fresh record with `duplicate = false` first,
then the very same record with `duplicate = true`, and the store then
holds exactly one record. -/
theorem upload_twice_idempotent (f : UploadFile) (now1 now2 : Nat)
    (hne : f.content ≠ []) (hsize : f.content.length ≤ maxSizeDefault) :
    ∃ r : FileRecord,
      (uploadPOST emptyDB f now1).response = UploadResponse.ok false r
      ∧ (uploadPOST (uploadPOST emptyDB f now1).db f now2).response
          = UploadResponse.ok true r
      ∧ (getStats (uploadPOST (uploadPOST emptyDB f now1).db f now2).db).1.totalFiles
          = 1 := by
  have hvalid := validateFile_ok f hne hsize
  have hfirst : uploadPOST emptyDB f now1 =
      { response := UploadResponse.ok false
          (mkRecord 0 (generateFileMetadata f (computeFileHash f.content)) now1)
        db := { files := [(0, mkRecord 0
                  (generateFileMetadata f (computeFileHash f.content)) now1)]
                hashIndex := [(computeFileHash f.content, 0)]
                nextId := 1 }
        background := some 0 } := by
    rw [uploadPOST_valid_eq emptyDB f now1 hvalid]
    rfl
  have hget0 : jsMapGet [(computeFileHash f.content, (0 : Nat))]
      (computeFileHash f.content) = some 0 :=
    jsMapGet_jsMapSet_self [] (computeFileHash f.content) 0
  have hfb : (findByHash
      { files := [(0, mkRecord 0
          (generateFileMetadata f (computeFileHash f.content)) now1)]
        hashIndex := [(computeFileHash f.content, 0)]
        nextId := 1 } (computeFileHash f.content)).1
      = some (mkRecord 0
          (generateFileMetadata f (computeFileHash f.content)) now1) := by
    unfold findByHash
    rw [hget0]
    rfl
  have hsecond : uploadPOST
      { files := [(0, mkRecord 0
          (generateFileMetadata f (computeFileHash f.content)) now1)]
        hashIndex := [(computeFileHash f.content, 0)]
        nextId := 1 } f now2 =
      { response := UploadResponse.ok true
          (mkRecord 0 (generateFileMetadata f (computeFileHash f.content)) now1)
        db := { files := [(0, mkRecord 0
                  (generateFileMetadata f (computeFileHash f.content)) now1)]
                hashIndex := [(computeFileHash f.content, 0)]
                nextId := 1 }
        background := none } := by
    rw [uploadPOST_valid_eq _ f now2 hvalid, hfb]
  refine ⟨mkRecord 0 (generateFileMetadata f (computeFileHash f.content)) now1,
    ?_, ?_, ?_⟩
  · rw [hfirst]
  · rw [hfirst]
    simp only
    rw [hsecond]
  · rw [hfirst]
    simp only
    rw [hsecond]
    rfl

/-- Witness for C2 on the two-byte content [72, 105]. -/
theorem upload_twice_idempotent_w :
    ∃ r : FileRecord,
      (uploadPOST emptyDB
          { name := "hello.txt", content := [72, 105], type := "text/plain" }
          0).response = UploadResponse.ok false r
      ∧ (uploadPOST
          (uploadPOST emptyDB
            { name := "hello.txt", content := [72, 105], type := "text/plain" }
            0).db
          { name := "hello.txt", content := [72, 105], type := "text/plain" }
          1).response = UploadResponse.ok true r
      ∧ (getStats (uploadPOST
          (uploadPOST emptyDB
            { name := "hello.txt", content := [72, 105], type := "text/plain" }
            0).db
          { name := "hello.txt", content := [72, 105], type := "text/plain" }
          1).db).1.totalFiles = 1 :=
  upload_twice_idempotent
    { name := "hello.txt", content := [72, 105], type := "text/plain" }
    0 1 (by decide) (by decide)

/-- C5: when the uploaded content's fingerprint is already in the store,
the upload returns the stored record carrying that fingerprint with
`duplicate = true`, leaves the store state exactly as it was, and starts
no background processing job. -/
theorem upload_duplicate_no_effect (db : DB) (f : UploadFile) (now : Nat)
    (hdb : Reachable db) (hne : f.content ≠ [])
    (hsize : f.content.length ≤ maxSizeDefault)
    (hdup : jsMapHas db.hashIndex (computeFileHash f.content) = true) :
    ∃ existing : FileRecord,
      uploadPOST db f now =
        { response := UploadResponse.ok true existing
          db := db
          background := none }
      ∧ existing.file_hash = computeFileHash f.content
      ∧ ∃ i, (i, existing) ∈ db.files := by
  have hInv := reachable_inv hdb
  have hvalid := validateFile_ok f hne hsize
  obtain ⟨idv, hgetIdx⟩ :
      ∃ i, jsMapGet db.hashIndex (computeFileHash f.content) = some i := by
    rw [jsMapHas, List.any_eq_true] at hdup
    obtain ⟨p, hp, hpk⟩ := hdup
    have hfs : (List.find? (fun p => p.1 == computeFileHash f.content)
        db.hashIndex).isSome = true :=
      List.find?_isSome.mpr ⟨p, hp, hpk⟩
    obtain ⟨q, hq⟩ := Option.isSome_iff_exists.mp hfs
    refine ⟨q.2, ?_⟩
    unfold jsMapGet
    rw [hq]
    rfl
  have hpairmem : (computeFileHash f.content, idv) ∈ db.hashIndex :=
    jsMapGet_mem hgetIdx
  obtain ⟨p, hp, hp1, hp2⟩ := hInv.idxSound _ hpairmem
  have hmemfiles : (idv, p.2) ∈ db.files := by
    have hpe : p = (idv, p.2) := by
      cases p
      simp_all
    rw [← hpe]
    exact hp
  have hgetf : jsMapGet db.files idv = some p.2 :=
    jsMapGet_eq_some_of_mem hInv.idNodup hmemfiles
  have hfb : (findByHash db (computeFileHash f.content)).1 = some p.2 := by
    unfold findByHash
    rw [hgetIdx]
    simp [hgetf]
  refine ⟨p.2, ?_, hp2, ⟨idv, hmemfiles⟩⟩
  rw [uploadPOST_valid_eq db f now hvalid, hfb]

/-- A concrete insertion payload whose fingerprint is the digest of the
one-byte content [7], for the C5 witness. -/
def c5data : InsertData :=
  { file_name := "b.txt"
    file_hash := computeFileHash [7]
    file_size := 1
    mime_type := "text/plain"
    chunk_count := none
    processing_status := ProcessingStatus.pending }

/-- Store holding one record whose fingerprint is the digest of [7]. -/
def c5db : DB := (insertFile emptyDB c5data 0).2

/-- Witness for C5: re-uploading the content [7] to `c5db` is a pure
duplicate hit. -/
theorem upload_duplicate_no_effect_w :
    ∃ existing : FileRecord,
      uploadPOST c5db { name := "c.txt", content := [7], type := "t" } 3 =
        { response := UploadResponse.ok true existing
          db := c5db
          background := none }
      ∧ existing.file_hash = computeFileHash
          ({ name := "c.txt", content := [7], type := "t" } : UploadFile).content
      ∧ ∃ i, (i, existing) ∈ c5db.files :=
  upload_duplicate_no_effect c5db
    { name := "c.txt", content := [7], type := "t" } 3
    (Reachable.insert c5data 0 Reachable.init)
    (by decide) (by decide)
    (jsMapHas_true_of_get_some
      (jsMapGet_jsMapSet_self ([] : List (String × Nat))
        (computeFileHash [7]) 0))

end Dedup
